import Mathlib

/-!
Verification of the qcbit/blockchain node core against its specification.

The Go source is shallowly embedded: Go uint64 arithmetic becomes Nat with
an explicit modulus 2^64 at every operation that can wrap, the account map
becomes an association list with functional lookup and update, fallible
operations return Except or Option, and a Go panic is modelled as the none
branch of an Option result. Go strings in this program (account ids, hex
hashes, peer hosts) are ASCII, where Go byte indexing and Lean character
indexing coincide; they are embedded as Lean String values.
-/

namespace QChain

/-- Modulus of Go uint64 arithmetic. -/
def W64 : Nat := 2 ^ 64

/-- Go uint64 addition (wraps modulo 2^64). -/
def add64 (a b : Nat) : Nat := (a + b) % W64

/-- Go uint64 multiplication (wraps modulo 2^64). -/
def mul64 (a b : Nat) : Nat := (a * b) % W64

/-- Go uint64 subtraction (wraps modulo 2^64). -/
def sub64 (a b : Nat) : Nat := (a % W64 + (W64 - b % W64)) % W64

/-- AccountID from database/account.go: a hex address string. -/
abbrev AccountID := String

/-- Account from database/account.go. -/
structure Account where
  accountID : AccountID
  nonce : Nat
  balance : Nat
deriving DecidableEq, Repr

/-- newAccount from database/account.go: zero nonce, given balance. -/
def newAccount (accountID : AccountID) (balance : Nat) : Account :=
  { accountID := accountID, nonce := 0, balance := balance }

/-- The in-memory account map of database.go, embedded as an association
list from AccountID to Account; Go map lookup and assignment become
lookupAccount and insertAccount. -/
abbrev AccountsMap := List (AccountID × Account)

/-- Lookup in the account map (Go map read). -/
def lookupAccount : AccountsMap → AccountID → Option Account
  | [], _ => none
  | (k, a) :: rest, id => if k = id then some a else lookupAccount rest id

/-- Update in the account map (Go map assignment): replace the binding if
the key is present, otherwise add it. -/
def insertAccount : AccountsMap → AccountID → Account → AccountsMap
  | [], id, a => [(id, a)]
  | (k, b) :: rest, id, a =>
      if k = id then (k, a) :: rest else (k, b) :: insertAccount rest id a

/-- Go map read with the zero-value default, as in ApplyTransaction where a
missing account is materialized through newAccount. -/
def getAccount (m : AccountsMap) (id : AccountID) : Account :=
  (lookupAccount m id).getD (newAccount id 0)

/-- Sum of all balances held in the account map. -/
def sumBalances (m : AccountsMap) : Nat :=
  (m.map (fun p => p.2.balance)).sum

/-- BlockTx from database/tx.go: SignedTx fields flattened, plus the gas
metadata stamped at mempool admission. The big.Int signature components
v, r, s are nonnegative integers. -/
structure BlockTx where
  chainID : Nat
  fromID : AccountID
  toID : AccountID
  value : Nat
  nonce : Nat
  tip : Nat
  data : List Nat
  v : Nat
  r : Nat
  s : Nat
  timeStamp : Nat
  gasPrice : Nat
  gasUnits : Nat
deriving DecidableEq, Repr

/-- BlockHeader from database/block.go. -/
structure BlockHeader where
  number : Nat
  prevBlockHash : String
  timeStamp : Nat
  beneficiaryID : AccountID
  difficulty : Nat
  miningReward : Nat
  stateRoot : String
  transRoot : String
  nonce : Nat
deriving DecidableEq, Repr

/-- Block from database/block.go. The Merkle tree is represented by its
list of leaf transactions, which is what MerkleTree.Values returns and the
only part of the tree the database layer reads. -/
structure Block where
  header : BlockHeader
  trans : List BlockTx
deriving DecidableEq, Repr

/-- The two error outcomes of ApplyTransaction in database.go. -/
inductive TxError where
  | invalidNonce
  | insufficientFunds
deriving DecidableEq, Repr

/-- The capped gas fee of ApplyTransaction: gas price times gas units in
uint64 arithmetic, clipped at the current balance of the from account. -/
def txGasFee (fromAcct : Account) (tx : BlockTx) : Nat :=
  let gasFee := mul64 tx.gasPrice tx.gasUnits
  if gasFee > fromAcct.balance then fromAcct.balance else gasFee

/-- ApplyTransaction from database/database.go lines 173 to 235, embedded
step for step. The result pairs the returned error (none on success) with
the account map after the call; the intermediate map write of the gas fee
transfer is kept on the error paths exactly as in the source, including
the write order from-then-beneficiary and, on success, the final write
order from, to, beneficiary. -/
def applyTransaction (accounts : AccountsMap) (block : Block) (tx : BlockTx) :
    Option TxError × AccountsMap :=
  let fromAcct := getAccount accounts tx.fromID
  let toAcct := getAccount accounts tx.toID
  let bnfc := getAccount accounts block.header.beneficiaryID
  let gasFee := txGasFee fromAcct tx
  let fromAcct1 := { fromAcct with balance := sub64 fromAcct.balance gasFee }
  let bnfc1 := { bnfc with balance := add64 bnfc.balance gasFee }
  let accounts1 :=
    insertAccount (insertAccount accounts tx.fromID fromAcct1)
      block.header.beneficiaryID bnfc1
  if tx.nonce ≠ add64 fromAcct1.nonce 1 then
    (some TxError.invalidNonce, accounts1)
  else if fromAcct1.balance = 0 ∨ fromAcct1.balance < add64 tx.value tx.tip then
    (some TxError.insufficientFunds, accounts1)
  else
    let fromAcct2 := { fromAcct1 with balance := sub64 fromAcct1.balance tx.value }
    let toAcct1 := { toAcct with balance := add64 toAcct.balance tx.value }
    let fromAcct3 := { fromAcct2 with balance := sub64 fromAcct2.balance tx.tip }
    let bnfc2 := { bnfc1 with balance := add64 bnfc1.balance tx.tip }
    let fromAcct4 := { fromAcct3 with nonce := tx.nonce }
    (none,
      insertAccount
        (insertAccount (insertAccount accounts1 tx.fromID fromAcct4) tx.toID toAcct1)
        block.header.beneficiaryID bnfc2)

/-- ApplyMiningReward from database/database.go lines 162 to 170. A missing
beneficiary is read as the Go zero value of Account, whose accountID field
is the empty string. -/
def applyMiningReward (accounts : AccountsMap) (block : Block) : AccountsMap :=
  let account := (lookupAccount accounts block.header.beneficiaryID).getD
    { accountID := "", nonce := 0, balance := 0 }
  insertAccount accounts block.header.beneficiaryID
    { account with balance := add64 account.balance block.header.miningReward }

/-- Query from database/database.go lines 107 to 117: the returned value
is paired with the account map after the call, which the method never
modifies. -/
def query (accounts : AccountsMap) (accountID : AccountID) :
    Except String Account × AccountsMap :=
  match lookupAccount accounts accountID with
  | none => (Except.error "account does not exist", accounts)
  | some account => (Except.ok account, accounts)

/-- The constant named match in isHashSolved (database/block.go): the
string 0x followed by 17 zero characters, 19 characters in total. -/
def matchConst : String := "0x00000000000000000"

/-- isHashSolved from database/block.go lines 199 to 208. The difficulty
is a uint16, so the increment by 2 wraps modulo 2^16. Go slicing of the
19 character constant panics when the slice bound exceeds 19; the panic is
modelled as none. When the hash length is not 66 the function returns
false before slicing. -/
def isHashSolved (difficulty : Nat) (hash : String) : Option Bool :=
  if hash.length ≠ 66 then some false
  else
    let d := (difficulty % 2 ^ 16 + 2) % 2 ^ 16
    if d ≤ matchConst.length then some (decide (hash.take d = matchConst.take d))
    else none

/-- The target prefix of the difficulty rule as the specification words
it: 0x followed by the given number of zero nibbles. -/
def zeroTarget (difficulty : Nat) : String :=
  String.mk ('0' :: 'x' :: List.replicate difficulty '0')

/-- QID from signature/signature.go: the fixed offset added to the ECDSA
recovery id to form the v component. -/
def QID : Nat := 29

/-- Big-endian byte rendering of a natural number into a buffer of the
given length, as big.Int FillBytes writes into a fresh buffer. -/
def beBytes : Nat → Nat → List Nat
  | _, 0 => []
  | n, len + 1 => (n / 256 ^ len) % 256 :: beBytes (n % 256 ^ len) len

/-- big.Int FillBytes on a fresh buffer of the given length: panics, here
none, when the value does not fit. -/
def fillBytes (n : Nat) (len : Nat) : Option (List Nat) :=
  if n < 256 ^ len then some (beBytes n len) else none

/-- big.Int SetBytes: interpret a byte slice as a big-endian natural. -/
def setBytes (bytes : List Nat) : Nat :=
  bytes.foldl (fun acc b => acc * 256 + b) 0

/-- ToSignatureBytes from signature/signature.go lines 68 to 82: r and s
each fill 32 bytes, and the final byte is v minus QID in uint64
arithmetic truncated to a byte. -/
def ToSignatureBytes (v r s : Nat) : Option (List Nat) :=
  match fillBytes r 32, fillBytes s 32 with
  | some rBytes, some sBytes => some (rBytes ++ sBytes ++ [sub64 v QID % 256])
  | _, _ => none

/-- toSignature from signature/signature.go lines 153 to 158: split a 65
byte signature back into the r, s, v components, re-adding QID to the
recovery byte with byte wraparound. Indexing a shorter slice panics,
modelled as none. -/
def toSignature (sig : List Nat) : Option (Nat × Nat × Nat) :=
  if sig.length < 65 then none
  else
    some ((sig.getD 64 0 + QID) % 256,
      setBytes (sig.take 32),
      setBytes ((sig.drop 32).take 32))

/-- Lexicographic strict comparison of character lists, the order Go uses
on strings (byte-wise lexicographic; UTF-8 byte order and code point
order coincide). -/
def ltChars : List Char → List Char → Bool
  | [], [] => false
  | [], _ :: _ => true
  | _ :: _, [] => false
  | a :: as, b :: bs =>
      if a < b then true else if b < a then false else ltChars as bs

/-- byAccount.Less from database/account.go lines 97 to 99: the strict
ascending accountID order of the HashState sort. -/
def accountLt (a b : Account) : Prop :=
  ltChars a.accountID.data b.accountID.data = true

instance : DecidableRel accountLt := fun a b =>
  inferInstanceAs (Decidable (ltChars a.accountID.data b.accountID.data = true))

/-- The non-strict placement order of the sort: a before b when Less b a
fails, which is how an insertion sort consistent with byAccount.Less
places equal keys (input order preserved, as the Go insertion sort does
on the short slices considered here). -/
def accountLe (a b : Account) : Prop :=
  ltChars b.accountID.data a.accountID.data = false

instance : DecidableRel accountLe := fun a b =>
  inferInstanceAs (Decidable (ltChars b.accountID.data a.accountID.data = false))

/-- sort.Sort over byAccount as used by HashState, modelled as an
insertion sort consistent with byAccount.Less. -/
def sortByAccount (accounts : List Account) : List Account :=
  List.insertionSort accountLe accounts

/-- HashState from database/database.go lines 147 to 159, applied to a
snapshot of the account map values in some iteration order. The function
returns the canonical sorted account list that signature.Hash (SHA-256 of
the JSON rendering) is then applied to; since that hash is a pure
function of this list, two calls produce the same state root exactly when
they produce the same sorted list. -/
def hashStateList (snapshot : List Account) : List Account :=
  sortByAccount snapshot

/-- Peer from the peer package: a node identified by its host string. -/
structure Peer where
  host : String
deriving DecidableEq, Repr

/-- The byte sequence of an ASCII Go string (host names and hex hashes in
this program are ASCII, where UTF-8 bytes and code points coincide). -/
def stringBytes (s : String) : List Nat :=
  s.data.map Char.toNat

/-- The 32-bit FNV-1a hash from hash/fnv as used by Worker.selection:
starting from the offset basis, xor in each byte and multiply by the FNV
prime, modulo 2^32. -/
def fnv32a (data : List Nat) : Nat :=
  data.foldl (fun h b => (Nat.xor h (b % 256) * 16777619) % 2 ^ 32) 2166136261

/-- sort.Strings as used by Worker.selection: ascending lexicographic
sort of the host names. -/
def sortStrings (l : List String) : List String :=
  List.insertionSort (fun a b => a ≤ b) l

/-- Worker.selection from worker/poa.go lines 138 to 160: sort the hosts
of the known peers, hash the latest block hash with FNV-1a 32, and index
the sorted list at the hash modulo the list length. Go modulo by zero on
an empty peer list panics, modelled as none. -/
def selection (peers : List Peer) (latestBlockHash : String) : Option String :=
  let names := sortStrings (peers.map Peer.host)
  if names.length = 0 then none
  else names.get? (fnv32a (stringBytes latestBlockHash) % names.length)

/-- The selection rule as the specification words it: the sorted host at
index fnv32a of the latest block hash modulo the list length. -/
def selectionSpec (peers : List Peer) (latestBlockHash : String) : Option String :=
  (sortStrings (peers.map Peer.host)).get?
    (fnv32a (stringBytes latestBlockHash) % peers.length)

/-- Genesis parameters used by the mining path (genesis/genesis.go and the
state package). -/
structure Genesis where
  chainID : Nat
  transPerBlock : Nat
  difficulty : Nat
  miningReward : Nat
  gasPrice : Nat
deriving DecidableEq, Repr

/-- The node state owned by the state package: genesis, beneficiary, the
mempool entries in admission order, the account database, the latest
block, and the on-disk block log. -/
structure NodeState where
  genesis : Genesis
  beneficiaryID : AccountID
  mempool : List BlockTx
  accounts : AccountsMap
  latestBlock : Block
  storage : List Block
deriving DecidableEq, Repr

/-- Modelled from the spec: the mempool package is not under src, only its
callers are. Count returns the number of pending transactions. -/
def mempoolCount (pool : List BlockTx) : Nat := pool.length

/-- The tip selection score of a transaction: gas price times gas units
plus tip. -/
def tipScore (tx : BlockTx) : Nat := mul64 tx.gasPrice tx.gasUnits + tx.tip

/-- The tip strategy order: descending score, ties broken by ascending
from then nonce. -/
def tipOrder (t1 t2 : BlockTx) : Prop :=
  tipScore t2 < tipScore t1 ∨
    (tipScore t1 = tipScore t2 ∧
      (t1.fromID < t2.fromID ∨ (t1.fromID = t2.fromID ∧ t1.nonce ≤ t2.nonce)))

instance : DecidableRel tipOrder := fun t1 t2 =>
  inferInstanceAs (Decidable (tipScore t2 < tipScore t1 ∨
    (tipScore t1 = tipScore t2 ∧
      (t1.fromID < t2.fromID ∨ (t1.fromID = t2.fromID ∧ t1.nonce ≤ t2.nonce)))))

/-- Modelled from the spec: the mempool package is not under src. PickBest
with the default Tip strategy returns up to the requested number of
transactions, best score first. -/
def pickBest (n : Nat) (pool : List BlockTx) : List BlockTx :=
  (List.insertionSort tipOrder pool).take n

/-- Modelled from the spec: the mempool package is not under src. Entries
are keyed by from and nonce, and Delete removes the entry with the key of
the given transaction. -/
def mempoolDelete (pool : List BlockTx) (tx : BlockTx) : List BlockTx :=
  pool.filter (fun t => ¬(t.fromID = tx.fromID ∧ t.nonce = tx.nonce))

/-- ErrNoTransactions from state/block.go. -/
def errNoTransactions : String := "no transactions in the mempool"

/-- A block validator standing for Block.ValidateBlock, whose source file
is not under src; it receives the candidate block, the latest block and
the current account map (from which the expected state root is computed)
and returns an error message or none. The theorems below hold for every
validator. -/
abbrev Validator := Block → Block → AccountsMap → Option String

/-- validateUpdateDatabase from the state package (src/unnamed/part_008
lines 82 to 130): validate the block, append it to storage, update the
latest block, then for each transaction delete it from the mempool and
apply it, skipping per-transaction errors, and finally apply the mining
reward. -/
def validateUpdateDatabase (validateBlock : Validator) (s : NodeState)
    (block : Block) : Except String NodeState :=
  match validateBlock block s.latestBlock s.accounts with
  | some e => Except.error e
  | none =>
    let s1 := { s with storage := s.storage ++ [block], latestBlock := block }
    let s2 := block.trans.foldl
      (fun acc tx =>
        let acc1 := { acc with mempool := mempoolDelete acc.mempool tx }
        { acc1 with accounts := (applyTransaction acc1.accounts block tx).2 })
      s1
    Except.ok { s2 with accounts := applyMiningReward s2.accounts block }

/-- The arguments the state package passes to database.POW: beneficiary,
difficulty and mining reward from the node configuration, the latest
block, the current state root input, and the picked transactions. -/
structure POWArgs where
  beneficiaryID : AccountID
  difficulty : Nat
  miningReward : Nat
  prevBlock : Block
  stateRoot : List Account
  trans : List BlockTx
deriving DecidableEq, Repr

/-- The POW arguments built by MineNewBlock from the node state. -/
def mkPOWArgs (s : NodeState) : POWArgs :=
  { beneficiaryID := s.beneficiaryID
    difficulty := s.genesis.difficulty
    miningReward := s.genesis.miningReward
    prevBlock := s.latestBlock
    stateRoot := hashStateList (s.accounts.map (fun p => p.2))
    trans := pickBest s.genesis.transPerBlock s.mempool }

/-- MineNewBlock from the state package (src/unnamed/part_008 lines 15 to
57). database.POW involves wall-clock time, randomness and cancellation,
so it enters the embedding as an oracle from the built arguments to a
block or an error; ctxErr is the cancellation state checked after POW
returns. On an empty mempool the call returns ErrNoTransactions at once;
otherwise the best transPerBlock transactions are picked, POW runs on
them, and on success the validate and update critical section runs before
the mined block is returned. -/
def mineNewBlock (validateBlock : Validator)
    (pow : POWArgs → Except String Block) (ctxErr : Option String)
    (s : NodeState) : Except String Block × NodeState :=
  if mempoolCount s.mempool = 0 then (Except.error errNoTransactions, s)
  else
    match pow (mkPOWArgs s) with
    | Except.error e => (Except.error e, s)
    | Except.ok block =>
      match ctxErr with
      | some e => (Except.error e, s)
      | none =>
        match validateUpdateDatabase validateBlock s block with
        | Except.error e => (Except.error e, s)
        | Except.ok s' => (Except.ok block, s')

/-- The account map for the C1 scenario: one funded account that is both
the sender and the block beneficiary. -/
def c1pre : AccountsMap :=
  [("0xaaa", { accountID := "0xaaa", nonce := 0, balance := 100 })]

/-- The C1 transaction: value 10, tip 2, gas fee 1, correct nonce. -/
def c1tx : BlockTx :=
  { chainID := 1, fromID := "0xaaa", toID := "0xbbb", value := 10, nonce := 1,
    tip := 2, data := [], v := 29, r := 0, s := 0, timeStamp := 0,
    gasPrice := 1, gasUnits := 1 }

/-- The C1 block: its beneficiary is the sender of c1tx. -/
def c1hdr : BlockHeader :=
  { number := 1, prevBlockHash := "", timeStamp := 0, beneficiaryID := "0xaaa",
    difficulty := 1, miningReward := 0, stateRoot := "", transRoot := "",
    nonce := 0 }

/-- The block of the c1 scenario, built from its header. -/
def c1blk : Block := { header := c1hdr, trans := [] }

/-- The account map for the C2 scenario: same aliased sender and
beneficiary. -/
def c2pre : AccountsMap :=
  [("0xaaa", { accountID := "0xaaa", nonce := 0, balance := 100 })]

/-- The C2 transaction: gas fee 3, and a nonce of 5 that fails the nonce
check (the expected nonce is 1). -/
def c2tx : BlockTx :=
  { chainID := 1, fromID := "0xaaa", toID := "0xbbb", value := 1, nonce := 5,
    tip := 1, data := [], v := 29, r := 0, s := 0, timeStamp := 0,
    gasPrice := 3, gasUnits := 1 }

/-- The C2 block: its beneficiary is the sender of c2tx. -/
def c2hdr : BlockHeader :=
  { number := 1, prevBlockHash := "", timeStamp := 0, beneficiaryID := "0xaaa",
    difficulty := 1, miningReward := 0, stateRoot := "", transRoot := "",
    nonce := 0 }

/-- The block of the c2 scenario, built from its header. -/
def c2blk : Block := { header := c2hdr, trans := [] }

/-- The account map for the C3 counterexample: sender with balance 1. -/
def c3pre : AccountsMap :=
  [("0xaaa", { accountID := "0xaaa", nonce := 0, balance := 1 })]

/-- The C3 transaction: value 0, tip 0, gas fee 1, correct nonce; after
the fee the remaining balance 0 still covers value plus tip. -/
def c3tx : BlockTx :=
  { chainID := 1, fromID := "0xaaa", toID := "0xbbb", value := 0, nonce := 1,
    tip := 0, data := [], v := 29, r := 0, s := 0, timeStamp := 0,
    gasPrice := 1, gasUnits := 1 }

/-- The C3 block, with a beneficiary distinct from sender and receiver. -/
def c3hdr : BlockHeader :=
  { number := 1, prevBlockHash := "", timeStamp := 0, beneficiaryID := "0xccc",
    difficulty := 1, miningReward := 0, stateRoot := "", transRoot := "",
    nonce := 0 }

/-- The block of the c3 scenario, built from its header. -/
def c3blk : Block := { header := c3hdr, trans := [] }

/-- The account map for the C4 scenario: aliased sender and beneficiary. -/
def c4pre : AccountsMap :=
  [("0xaaa", { accountID := "0xaaa", nonce := 0, balance := 100 })]

/-- The C4 transaction: a successfully applied transfer with nonce 1. -/
def c4tx : BlockTx :=
  { chainID := 1, fromID := "0xaaa", toID := "0xbbb", value := 10, nonce := 1,
    tip := 2, data := [], v := 29, r := 0, s := 0, timeStamp := 0,
    gasPrice := 1, gasUnits := 1 }

/-- The C4 block: its beneficiary is the sender of c4tx. -/
def c4hdr : BlockHeader :=
  { number := 1, prevBlockHash := "", timeStamp := 0, beneficiaryID := "0xaaa",
    difficulty := 1, miningReward := 0, stateRoot := "", transRoot := "",
    nonce := 0 }

/-- The block of the c4 scenario, built from its header. -/
def c4blk : Block := { header := c4hdr, trans := [] }

/-- C1. Balance conservation fails when the block beneficiary is the
sending account: on the concrete aliased input the transaction is applied
successfully, yet the sum of all balances grows from 100 to 113, because
the final map write of the beneficiary copy overwrites the map write of
the debited sender copy held under the same key. The 113 is the initial
100 plus gas fee 1 plus tip 2 plus value 10. -/
theorem applyTransaction_alias_breaks_conservation :
    (applyTransaction c1pre c1blk c1tx).1 = none ∧
    sumBalances c1pre = 100 ∧
    sumBalances (applyTransaction c1pre c1blk c1tx).2 = 113 := by
  decide

/-- C2. The failure path does not merely move the gas fee when the block
beneficiary is the sending account: on the concrete aliased input the
nonce check fails, and instead of a net-zero fee transfer from the sender
to itself the stored balance grows from 100 to 103 by the fee, because
the beneficiary copy (credited with the fee) overwrites the debited
sender copy under the same key. -/
theorem applyTransaction_alias_fee_not_debited :
    (applyTransaction c2pre c2blk c2tx).1 = some TxError.invalidNonce ∧
    (applyTransaction c2pre c2blk c2tx).2 =
      [("0xaaa", { accountID := "0xaaa", nonce := 0, balance := 103 })] := by
  decide

/-- C3 counterexample. A transaction whose remaining balance after the
gas fee equals value plus tip (both zero here) is still rejected with the
insufficient funds error, because the source also fails whenever the
remaining balance is exactly zero. -/
theorem applyTransaction_zero_balance_rejected :
    (applyTransaction c3pre c3blk c3tx).1 = some TxError.insufficientFunds ∧
    add64 c3tx.value c3tx.tip ≤
      sub64 (getAccount c3pre c3tx.fromID).balance
        (txGasFee (getAccount c3pre c3tx.fromID) c3tx) := by
  decide

/-- C4. After a successful application with the block beneficiary equal
to the sender, the stored nonce of the sender is still the old nonce 0
rather than the transaction nonce 1: the final beneficiary map write
overwrites the sender copy that carried the nonce update. -/
theorem applyTransaction_alias_drops_nonce_update :
    (applyTransaction c4pre c4blk c4tx).1 = none ∧
    c4tx.nonce = 1 ∧
    (lookupAccount (applyTransaction c4pre c4blk c4tx).2 c4tx.fromID).map
      Account.nonce = some 0 := by
  decide

/-- C3 (amended). For every account map, block and transaction whose
nonce check passes, the call fails with the insufficient funds error
exactly when the balance of the from account after the gas fee debit is
zero or strictly below value plus tip (in uint64 arithmetic); otherwise
the transaction is applied successfully. -/
theorem applyTransaction_insufficientFunds_iff (accounts : AccountsMap)
    (block : Block) (tx : BlockTx)
    (hnonce : tx.nonce = add64 (getAccount accounts tx.fromID).nonce 1) :
    ((applyTransaction accounts block tx).1 = some TxError.insufficientFunds ↔
      (sub64 (getAccount accounts tx.fromID).balance
          (txGasFee (getAccount accounts tx.fromID) tx) = 0 ∨
        sub64 (getAccount accounts tx.fromID).balance
          (txGasFee (getAccount accounts tx.fromID) tx) <
          add64 tx.value tx.tip)) := by
  unfold applyTransaction
  rw [if_neg (by simpa using hnonce)]
  split_ifs with hcond
  · simpa using hcond
  · simpa using hcond

/-- The account map for the C3 witness: sender with balance 10. -/
def c3wpre : AccountsMap :=
  [("0xaaa", { accountID := "0xaaa", nonce := 0, balance := 10 })]

/-- The C3 witness transaction: value 3, tip 2, gas fee 1, correct
nonce; the remaining balance 9 covers value plus tip. -/
def c3wtx : BlockTx :=
  { chainID := 1, fromID := "0xaaa", toID := "0xbbb", value := 3, nonce := 1,
    tip := 2, data := [], v := 29, r := 0, s := 0, timeStamp := 0,
    gasPrice := 1, gasUnits := 1 }

/-- Witness for C3 at a concrete input: balance 10, gas fee 1, value 3,
tip 2; the nonce hypothesis holds, and the remaining balance 9 is
positive and covers 5, so the iff shows the error is not raised. -/
theorem applyTransaction_insufficientFunds_iff_witness :
    c3wtx.nonce = add64 (getAccount c3wpre c3wtx.fromID).nonce 1 ∧
    ((applyTransaction c3wpre c3blk c3wtx).1 = some TxError.insufficientFunds ↔
      (sub64 (getAccount c3wpre c3wtx.fromID).balance
          (txGasFee (getAccount c3wpre c3wtx.fromID) c3wtx) = 0 ∨
        sub64 (getAccount c3wpre c3wtx.fromID).balance
          (txGasFee (getAccount c3wpre c3wtx.fromID) c3wtx) <
          add64 c3wtx.value c3wtx.tip)) :=
  ⟨by decide, applyTransaction_insufficientFunds_iff c3wpre c3blk c3wtx (by decide)⟩

/-- Lookup after update: the updated key reads the new account, any other
key reads as before. -/
theorem lookup_insert (m : AccountsMap) (k' : AccountID) (a : Account)
    (k : AccountID) :
    lookupAccount (insertAccount m k' a) k =
      if k' = k then some a else lookupAccount m k := by
  induction m with
  | nil =>
    by_cases h : k' = k <;> simp [insertAccount, lookupAccount, h]
  | cons hd tl ih =>
    obtain ⟨hk, ha⟩ := hd
    by_cases h1 : hk = k' <;> by_cases h2 : k' = k <;>
      simp_all [insertAccount, lookupAccount]

/-- C10. Querying an account id that is not in the database returns the
account does not exist error and leaves the account map unchanged, while
applyTransaction always materializes the from account of the transaction
it is given, even when it fails. -/
theorem query_missing_account (accounts : AccountsMap) (id : AccountID)
    (h : lookupAccount accounts id = none) :
    query accounts id = (Except.error "account does not exist", accounts) ∧
    ∀ (block : Block) (tx : BlockTx),
      lookupAccount (applyTransaction accounts block tx).2 tx.fromID ≠ none := by
  refine ⟨by simp [query, h], ?_⟩
  intro block tx
  unfold applyTransaction
  dsimp only
  split_ifs <;>
    simp only [lookup_insert] <;>
    split_ifs <;>
    simp

/-- Witness for C10 at a concrete input: the empty account map. -/
theorem query_missing_account_witness :
    lookupAccount [] "0xaaa" = none ∧
    (query [] "0xaaa" = (Except.error "account does not exist", []) ∧
      ∀ (block : Block) (tx : BlockTx),
        lookupAccount (applyTransaction [] block tx).2 tx.fromID ≠ none) :=
  ⟨rfl, query_missing_account [] "0xaaa" rfl⟩

/-- C5. MineNewBlock returns the no transactions error and leaves the
state untouched when the mempool is empty; otherwise POW receives exactly
the best transPerBlock transactions picked from the mempool together with
the configured beneficiary, difficulty, reward, latest block and state
root, and when POW succeeds and the context is not cancelled the validate
and update critical section produces the new state and the mined block is
returned. This holds for every validator standing in for
Block.ValidateBlock. -/
theorem mineNewBlock_spec (validateBlock : Validator)
    (pow : POWArgs → Except String Block) (ctxErr : Option String)
    (s : NodeState) :
    (s.mempool = [] →
      mineNewBlock validateBlock pow ctxErr s = (Except.error errNoTransactions, s)) ∧
    (∀ (block : Block) (s' : NodeState),
      s.mempool ≠ [] →
      pow (mkPOWArgs s) = Except.ok block →
      ctxErr = none →
      validateUpdateDatabase validateBlock s block = Except.ok s' →
      mineNewBlock validateBlock pow ctxErr s = (Except.ok block, s')) := by
  constructor
  · intro hempty
    simp [mineNewBlock, mempoolCount, hempty]
  · intro block s' hne hpow hctx hval
    have hlen : mempoolCount s.mempool ≠ 0 := by
      simpa [mempoolCount] using List.length_pos.mpr hne |>.ne'
    simp [mineNewBlock, hlen, hpow, hctx, hval]

/-- The genesis record of the C5 witness scenario. -/
def c5gen : Genesis :=
  { chainID := 1, transPerBlock := 2, difficulty := 1, miningReward := 5,
    gasPrice := 1 }

/-- A pending transaction of the C5 witness scenario. -/
def c5tx : BlockTx :=
  { chainID := 1, fromID := "0xaaa", toID := "0xbbb", value := 4, nonce := 1,
    tip := 0, data := [], v := 29, r := 0, s := 0, timeStamp := 0,
    gasPrice := 1, gasUnits := 1 }

/-- The header of the genesis block of the C5 witness scenario. -/
def c5genHdr : BlockHeader :=
  { number := 0, prevBlockHash := "", timeStamp := 0, beneficiaryID := "",
    difficulty := 1, miningReward := 5, stateRoot := "", transRoot := "",
    nonce := 0 }

/-- The genesis block of the C5 witness scenario. -/
def c5genBlk : Block := { header := c5genHdr, trans := [] }

/-- The node state of the C5 witness scenario: one pending transaction. -/
def c5state : NodeState :=
  { genesis := c5gen, beneficiaryID := "0xmmm", mempool := [c5tx],
    accounts := [("0xaaa", { accountID := "0xaaa", nonce := 0, balance := 10 })],
    latestBlock := c5genBlk, storage := [] }

/-- The header of the block the C5 witness oracle returns from POW. -/
def c5minedHdr : BlockHeader :=
  { number := 1, prevBlockHash := "", timeStamp := 0, beneficiaryID := "0xmmm",
    difficulty := 1, miningReward := 5, stateRoot := "", transRoot := "",
    nonce := 7 }

/-- The block the C5 witness oracle returns from POW; it carries the
picked transaction. -/
def c5minedBlk : Block := { header := c5minedHdr, trans := [c5tx] }

/-- A validator that accepts every block, for the C5 witness. -/
def c5validator : Validator := fun _ _ _ => none

/-- The POW oracle of the C5 witness: always solves with c5minedBlk. -/
def c5pow : POWArgs → Except String Block := fun _ => Except.ok c5minedBlk

/-- Witness for C5 at the concrete scenario: the mempool is non-empty,
POW returns the mined block, the context is live, validation succeeds,
and MineNewBlock returns the block with the updated state in which the
block is appended, the latest block is replaced, the transaction has been
applied and removed from the mempool, and the mining reward is granted. -/
theorem mineNewBlock_spec_witness :
    mineNewBlock c5validator c5pow none c5state =
      (Except.ok c5minedBlk,
        { genesis := c5gen, beneficiaryID := "0xmmm", mempool := [],
          accounts :=
            [("0xaaa", { accountID := "0xaaa", nonce := 1, balance := 5 }),
              ("0xmmm", { accountID := "0xmmm", nonce := 0, balance := 6 }),
              ("0xbbb", { accountID := "0xbbb", nonce := 0, balance := 4 })],
          latestBlock := c5minedBlk, storage := [c5minedBlk] }) :=
  (mineNewBlock_spec c5validator c5pow none c5state).2 c5minedBlk _
    (by decide) (by rfl) (by rfl) (by rfl)

/-- C9. For a non-empty known peer list, selection returns exactly the
host at index fnv32a of the latest block hash modulo the list length in
the ascending sort of the peer hosts, as the specification formula
selectionSpec states, and that index is in range. -/
theorem selection_spec (peers : List Peer) (latestBlockHash : String)
    (hne : peers ≠ []) :
    selection peers latestBlockHash = selectionSpec peers latestBlockHash ∧
    ∃ hlt : fnv32a (stringBytes latestBlockHash) %
        (sortStrings (peers.map Peer.host)).length <
        (sortStrings (peers.map Peer.host)).length,
      selection peers latestBlockHash =
        some ((sortStrings (peers.map Peer.host)).get
          ⟨fnv32a (stringBytes latestBlockHash) %
            (sortStrings (peers.map Peer.host)).length, hlt⟩) := by
  have hlen : (sortStrings (peers.map Peer.host)).length = peers.length := by
    rw [sortStrings,
      (List.perm_insertionSort (fun a b => a ≤ b) (peers.map Peer.host)).length_eq,
      List.length_map]
  have hpos : 0 < (sortStrings (peers.map Peer.host)).length := by
    rw [hlen]
    exact List.length_pos.mpr hne
  have hlt : fnv32a (stringBytes latestBlockHash) %
      (sortStrings (peers.map Peer.host)).length <
      (sortStrings (peers.map Peer.host)).length :=
    Nat.mod_lt _ hpos
  refine ⟨?_, hlt, ?_⟩
  · simp [selection, selectionSpec, hpos.ne', hlen, hne]
  · simp [selection, hpos.ne', List.get?_eq_get hlt]

/-- The known peer list of the C9 witness, including this node. -/
def c9peers : List Peer := [⟨"host-b:9080"⟩, ⟨"host-a:9080"⟩, ⟨"host-c:9080"⟩]

/-- Witness for C9 at a concrete peer list and block hash: the selection
agrees with the specification formula and picks an in-range sorted
host. -/
theorem selection_spec_witness :
    c9peers ≠ [] ∧
    (selection c9peers "0xdeadbeef" = selectionSpec c9peers "0xdeadbeef" ∧
      ∃ hlt : fnv32a (stringBytes "0xdeadbeef") %
          (sortStrings (c9peers.map Peer.host)).length <
          (sortStrings (c9peers.map Peer.host)).length,
        selection c9peers "0xdeadbeef" =
          some ((sortStrings (c9peers.map Peer.host)).get
            ⟨fnv32a (stringBytes "0xdeadbeef") %
              (sortStrings (c9peers.map Peer.host)).length, hlt⟩)) :=
  ⟨by decide, selection_spec c9peers "0xdeadbeef" (by decide)⟩

/-- Taking exactly the length of the left list of an append returns it. -/
theorem take_append_exact {α : Type} (l1 l2 : List α) (n : Nat)
    (h : l1.length = n) : (l1 ++ l2).take n = l1 := by
  subst h
  exact List.take_left l1 l2

/-- Dropping exactly the length of the left list of an append returns the
right list. -/
theorem drop_append_exact {α : Type} (l1 l2 : List α) (n : Nat)
    (h : l1.length = n) : (l1 ++ l2).drop n = l2 := by
  subst h
  exact List.drop_left l1 l2

/-- Reading an append at the length of the left list reads the head of
the right list. -/
theorem getD_append_length {α : Type} (l1 l2 : List α) (d : α) :
    (l1 ++ l2).getD l1.length d = l2.getD 0 d := by
  induction l1 with
  | nil => simp
  | cons x xs ih => simpa using ih

/-- A big-endian rendering always has exactly the buffer length. -/
theorem beBytes_length (n len : Nat) : (beBytes n len).length = len := by
  induction len generalizing n with
  | zero => simp [beBytes]
  | succ len ih => simp [beBytes, ih]

/-- Folding the big-endian digits of a value below the capacity of the
buffer recovers the value on top of the shifted accumulator. -/
theorem beBytes_foldl (len : Nat) : ∀ n acc : Nat, n < 256 ^ len →
    (beBytes n len).foldl (fun a b => a * 256 + b) acc = acc * 256 ^ len + n := by
  induction len with
  | zero =>
    intro n acc h
    interval_cases n
    simp [beBytes]
  | succ len ih =>
    intro n acc h
    have hdiv : n / 256 ^ len < 256 :=
      Nat.div_lt_of_lt_mul (by rw [← pow_succ]; exact h)
    have hmod : n / 256 ^ len % 256 = n / 256 ^ len := Nat.mod_eq_of_lt hdiv
    rw [beBytes, List.foldl_cons,
      ih (n % 256 ^ len) _ (Nat.mod_lt _ (Nat.pos_pow_of_pos len (by norm_num))),
      hmod]
    calc (acc * 256 + n / 256 ^ len) * 256 ^ len + n % 256 ^ len
        = acc * (256 ^ len * 256) +
          (256 ^ len * (n / 256 ^ len) + n % 256 ^ len) := by ring
      _ = acc * 256 ^ (len + 1) + n := by rw [Nat.div_add_mod]; ring

/-- SetBytes undoes the big-endian rendering of an in-range value. -/
theorem setBytes_beBytes (n len : Nat) (h : n < 256 ^ len) :
    setBytes (beBytes n len) = n := by
  simpa [setBytes] using beBytes_foldl len n 0 h

/-- C7. For all r and s representable in 32 bytes and v built from a
recovery id of 0 or 1 plus the QID offset, serializing to the 65 byte
signature form and parsing back returns exactly the original components,
in the order v, r, s that toSignature returns them: the QID offset is
removed into the final signature byte and re-added on parsing. -/
theorem signature_components_roundtrip (r s recid : Nat)
    (hr : r < 256 ^ 32) (hs : s < 256 ^ 32) (hrec : recid = 0 ∨ recid = 1) :
    (ToSignatureBytes (recid + QID) r s).bind toSignature =
      some (recid + QID, r, s) := by
  have hrB : fillBytes r 32 = some (beBytes r 32) := by rw [fillBytes, if_pos hr]
  have hsB : fillBytes s 32 = some (beBytes s 32) := by rw [fillBytes, if_pos hs]
  have hbyte : sub64 (recid + QID) QID % 256 = recid := by
    rcases hrec with h | h <;> subst h <;> decide
  have hlr : (beBytes r 32).length = 32 := beBytes_length r 32
  have hls : (beBytes s 32).length = 32 := beBytes_length s 32
  have hlen : (beBytes r 32 ++ beBytes s 32 ++ [recid]).length = 65 := by
    simp [hlr, hls]
  have htake : (beBytes r 32 ++ beBytes s 32 ++ [recid]).take 32 = beBytes r 32 := by
    rw [List.append_assoc]
    exact take_append_exact _ _ 32 hlr
  have hdrop : ((beBytes r 32 ++ beBytes s 32 ++ [recid]).drop 32).take 32 =
      beBytes s 32 := by
    rw [List.append_assoc, drop_append_exact _ _ 32 hlr]
    exact take_append_exact _ _ 32 hls
  have hge : (beBytes r 32 ++ beBytes s 32 ++ [recid]).getD 64 0 = recid := by
    have h64 : (beBytes r 32 ++ beBytes s 32).length = 64 := by simp [hlr, hls]
    calc (beBytes r 32 ++ beBytes s 32 ++ [recid]).getD 64 0
        = (beBytes r 32 ++ beBytes s 32 ++ [recid]).getD
            (beBytes r 32 ++ beBytes s 32).length 0 := by rw [h64]
      _ = ([recid] : List Nat).getD 0 0 := getD_append_length _ _ _
      _ = recid := rfl
  have hv : (recid + QID) % 256 = recid + QID := by
    rcases hrec with h | h <;> subst h <;> decide
  simp only [ToSignatureBytes, hrB, hsB, hbyte, Option.some_bind, toSignature]
  rw [if_neg (by rw [hlen]; exact lt_irrefl 65), htake, hdrop, hge]
  rw [setBytes_beBytes r 32 hr, setBytes_beBytes s 32 hs, hv]

/-- Witness for C7 at concrete components r, s, and recovery id 1. -/
theorem signature_components_roundtrip_witness :
    3 < 256 ^ 32 ∧ 5 < 256 ^ 32 ∧ ((1 : Nat) = 0 ∨ (1 : Nat) = 1) ∧
    (ToSignatureBytes (1 + QID) 3 5).bind toSignature = some (1 + QID, 3, 5) :=
  ⟨by norm_num, by norm_num, Or.inr rfl,
    signature_components_roundtrip 3 5 1 (by norm_num) (by norm_num) (Or.inr rfl)⟩

/-- The prefix of the match constant of the given length plus two is the
0x plus zeroes target, for every difficulty up to 17. -/
theorem matchConst_take (d : Nat) (hd : d ≤ 17) :
    matchConst.take (d + 2) = zeroTarget d := by
  interval_cases d <;> decide

/-- C6 (amended). For every difficulty up to 17 and every hash string,
the solution check is total and returns true exactly when the hash has
length 66 and its first 2 plus difficulty characters are 0x followed by
difficulty zero nibbles. For difficulties 18 to 64 and a 66 character
hash the source panics slicing its 19 character constant, and above that
the uint16 difficulty wraps, so the restriction to 17 is necessary. -/
theorem isHashSolved_iff (d : Nat) (h : String) (hd : d ≤ 17) :
    ((isHashSolved d h = some true) ↔
      (h.length = 66 ∧ h.take (2 + d) = zeroTarget d)) ∧
    isHashSolved d h ≠ none := by
  have hdm : (d % 2 ^ 16 + 2) % 2 ^ 16 = d + 2 := by
    have h1 : d % 2 ^ 16 = d := Nat.mod_eq_of_lt (by omega)
    rw [h1]
    exact Nat.mod_eq_of_lt (by omega)
  have hle : d + 2 ≤ matchConst.length := by
    have : matchConst.length = 19 := by decide
    omega
  by_cases hl : h.length = 66
  · have hred : isHashSolved d h =
        some (decide (h.take (d + 2) = matchConst.take (d + 2))) := by
      rw [isHashSolved]
      rw [if_neg (by simp [hl])]
      simp only [hdm]
      rw [if_pos hle]
    rw [hred, matchConst_take d hd]
    have hcomm : 2 + d = d + 2 := Nat.add_comm 2 d
    rw [hcomm]
    constructor
    · constructor
      · intro htrue
        exact ⟨hl, of_decide_eq_true (Option.some.inj htrue)⟩
      · intro hh
        rw [decide_eq_true hh.2]
    · simp
  · have hred : isHashSolved d h = some false := by
      rw [isHashSolved, if_pos (by simp [hl])]
    rw [hred]
    refine ⟨⟨fun htrue => absurd (Option.some.inj htrue) (by simp), ?_⟩, by simp⟩
    intro ⟨h66, _⟩
    exact absurd h66 hl

/-- The hash of the C6 witness: 0x, six zeroes, then 58 a characters. -/
def c6hash : String :=
  String.mk ('0' :: 'x' :: (List.replicate 6 '0' ++ List.replicate 58 'a'))

/-- Witness for C6 at difficulty 6 and a concrete 66 character hash with
six leading zero nibbles. -/
theorem isHashSolved_iff_witness :
    6 ≤ 17 ∧
    (((isHashSolved 6 c6hash = some true) ↔
      (c6hash.length = 66 ∧ c6hash.take (2 + 6) = zeroTarget 6)) ∧
    isHashSolved 6 c6hash ≠ none) :=
  ⟨by decide, isHashSolved_iff 6 c6hash (by decide)⟩

/-- The hash of the C6 counterexample: 0x followed by 64 zero nibbles. -/
def c6solvedHash : String := String.mk ('0' :: 'x' :: List.replicate 64 '0')

set_option maxRecDepth 8192 in
/-- C6 counterexample. At difficulty 18 the check is not total: on a 66
character hash consisting of 0x and 64 zero nibbles, for which the claim
asserts the check returns true, the source panics slicing the 19
character match constant with bound 20. -/
theorem isHashSolved_panics_at_18 :
    c6solvedHash.length = 66 ∧
    c6solvedHash.take (2 + 18) = zeroTarget 18 ∧
    isHashSolved 18 c6solvedHash = none := by
  decide

/-- The lexicographic comparison never holds of a list and itself. -/
theorem ltChars_irrefl : ∀ x : List Char, ltChars x x = false := by
  intro x
  induction x with
  | nil => rfl
  | cons a as ih => simp [ltChars, lt_irrefl, ih]

/-- The lexicographic comparison is asymmetric. -/
theorem ltChars_asymm : ∀ x y : List Char,
    ltChars x y = true → ltChars y x = false := by
  intro x
  induction x with
  | nil =>
    intro y h
    cases y with
    | nil => rfl
    | cons b bs => simp [ltChars] at h ⊢
  | cons a as ih =>
    intro y h
    cases y with
    | nil => simp [ltChars] at h
    | cons b bs =>
      rcases lt_trichotomy a b with hab | hab | hab
      · simp [ltChars, hab, lt_asymm hab]
      · subst hab
        simp only [ltChars, if_neg (lt_irrefl a)] at h ⊢
        exact ih bs h
      · simp [ltChars, hab, lt_asymm hab] at h

/-- Failures of the lexicographic comparison compose transitively. -/
theorem ltChars_not_lt_trans : ∀ a b c : List Char,
    ltChars b a = false → ltChars c b = false → ltChars c a = false := by
  intro a
  induction a with
  | nil =>
    intro b c h1 h2
    cases c with
    | nil => rfl
    | cons hc tc => rfl
  | cons ha ta ih =>
    intro b c h1 h2
    cases b with
    | nil => simp [ltChars] at h1
    | cons hb tb =>
      cases c with
      | nil => simp [ltChars] at h2
      | cons hc tc =>
        simp only [ltChars] at h1 h2 ⊢
        rcases lt_trichotomy hb ha with h | h | h
        · simp [h] at h1
        · subst h
          rcases lt_trichotomy hc hb with h' | h' | h'
          · simp [h'] at h2
          · subst h'
            simp only [if_neg (lt_irrefl hc)] at h1 h2 ⊢
            exact ih tb tc h1 h2
          · simp [h', lt_asymm h']
        · rcases lt_trichotomy hc hb with h' | h' | h'
          · simp [h'] at h2
          · subst h'
            simp [h, lt_asymm h]
          · have hca : ha < hc := lt_trans h h'
            simp [hca, lt_asymm hca]

/-- Two lists on which the lexicographic comparison fails both ways are
equal. -/
theorem ltChars_eq_of_not_lt : ∀ x y : List Char,
    ltChars x y = false → ltChars y x = false → x = y := by
  intro x
  induction x with
  | nil =>
    intro y h1 _
    cases y with
    | nil => rfl
    | cons b bs => simp [ltChars] at h1
  | cons a as ih =>
    intro y h1 h2
    cases y with
    | nil => simp [ltChars] at h2
    | cons b bs =>
      rcases lt_trichotomy a b with hab | hab | hab
      · simp [ltChars, hab] at h1
      · subst hab
        simp only [ltChars, if_neg (lt_irrefl a)] at h1 h2
        rw [ih bs h1 h2]
      · simp [ltChars, hab] at h2

/-- Strings with the same character data are the same string. -/
theorem string_eq_of_data_eq (s1 s2 : String) (h : s1.data = s2.data) :
    s1 = s2 := by
  cases s1 with
  | mk d1 =>
    cases s2 with
    | mk d2 =>
      have hd : d1 = d2 := h
      rw [hd]

/-- A sorted list whose account ids are distinct is strictly sorted on
the ids. -/
theorem sorted_strict_of_nodup (l : List Account)
    (hs : List.Sorted accountLe l)
    (hnd : (l.map Account.accountID).Nodup) :
    List.Pairwise accountLt l := by
  have hne : List.Pairwise
      (fun a b : Account => a.accountID ≠ b.accountID) l :=
    List.pairwise_map.mp hnd
  refine (hs.and hne).imp ?_
  rintro a b ⟨hle, hneq⟩
  by_cases hlt : ltChars a.accountID.data b.accountID.data = true
  · exact hlt
  · exact absurd
      (string_eq_of_data_eq _ _
        (ltChars_eq_of_not_lt _ _ (Bool.eq_false_iff.mpr hlt) hle))
      hneq

/-- C8 (amended). For snapshots of the account map whose accounts carry
pairwise distinct accountID values, the state root input is the unique
ascending sort of the accounts: any two snapshots with the same contents
produce the same sorted list, the list is sorted ascending by accountID,
and it is a permutation of the snapshot; the hash, a pure function of
this list, is therefore independent of map iteration order. -/
theorem hashState_deterministic (e1 e2 : List Account)
    (hperm : e1.Perm e2) (hnd : (e1.map Account.accountID).Nodup) :
    hashStateList e1 = hashStateList e2 ∧
    List.Sorted accountLe (hashStateList e1) ∧
    (hashStateList e1).Perm e1 := by
  haveI : IsTotal Account accountLe := by
    constructor
    intro a b
    by_cases hv : ltChars b.accountID.data a.accountID.data = true
    · exact Or.inr (ltChars_asymm _ _ hv)
    · exact Or.inl (Bool.eq_false_iff.mpr hv)
  haveI : IsTrans Account accountLe :=
    ⟨fun a b c hab hbc => ltChars_not_lt_trans _ _ _ hab hbc⟩
  haveI : IsAntisymm Account accountLt :=
    ⟨fun a b h1 h2 => by
      have := ltChars_asymm _ _ h1
      rw [h2] at this
      exact absurd this (by simp)⟩
  have hp1 : (hashStateList e1).Perm e1 := List.perm_insertionSort _ e1
  have hp2 : (hashStateList e2).Perm e2 := List.perm_insertionSort _ e2
  have hs1 : List.Sorted accountLe (hashStateList e1) :=
    List.sorted_insertionSort _ e1
  have hs2 : List.Sorted accountLe (hashStateList e2) :=
    List.sorted_insertionSort _ e2
  have hnd1 : ((hashStateList e1).map Account.accountID).Nodup :=
    (hp1.map Account.accountID).nodup_iff.mpr hnd
  have hnd2 : ((hashStateList e2).map Account.accountID).Nodup :=
    (hp2.map Account.accountID).nodup_iff.mpr
      ((hperm.map Account.accountID).nodup_iff.mp hnd)
  have heq : hashStateList e1 = hashStateList e2 :=
    List.eq_of_perm_of_sorted (hp1.trans (hperm.trans hp2.symm))
      (sorted_strict_of_nodup _ hs1 hnd1) (sorted_strict_of_nodup _ hs2 hnd2)
  exact ⟨heq, hs1, hp1⟩

/-- C8 counterexample. Two iteration orders of the same account map can
produce different state root inputs when two stored accounts carry the
same accountID field (reachable: ApplyMiningReward materializes a missing
beneficiary as the Go zero value whose accountID field is empty): the
sort compares only accountID, so the tied accounts keep their iteration
order and the hashed lists differ. -/
theorem hashState_iteration_order_dependent :
    (([⟨"", 0, 5⟩, ⟨"", 0, 7⟩] : List Account).Perm
      [⟨"", 0, 7⟩, ⟨"", 0, 5⟩]) ∧
    hashStateList [⟨"", 0, 5⟩, ⟨"", 0, 7⟩] ≠
      hashStateList [⟨"", 0, 7⟩, ⟨"", 0, 5⟩] :=
  ⟨List.Perm.swap _ _ _, by decide⟩

/-- Witness for C8 at two concrete snapshots of the same two-account map
with distinct ids. -/
theorem hashState_deterministic_witness :
    (([⟨"0xb", 0, 1⟩, ⟨"0xa", 0, 2⟩] : List Account).Perm
      [⟨"0xa", 0, 2⟩, ⟨"0xb", 0, 1⟩]) ∧
    (([⟨"0xb", 0, 1⟩, ⟨"0xa", 0, 2⟩] : List Account).map
      Account.accountID).Nodup ∧
    (hashStateList [⟨"0xb", 0, 1⟩, ⟨"0xa", 0, 2⟩] =
        hashStateList [⟨"0xa", 0, 2⟩, ⟨"0xb", 0, 1⟩] ∧
      List.Sorted accountLe
        (hashStateList [⟨"0xb", 0, 1⟩, ⟨"0xa", 0, 2⟩]) ∧
      (hashStateList [⟨"0xb", 0, 1⟩, ⟨"0xa", 0, 2⟩]).Perm
        [⟨"0xb", 0, 1⟩, ⟨"0xa", 0, 2⟩]) :=
  ⟨List.Perm.swap _ _ _, by decide,
    hashState_deterministic _ _ (List.Perm.swap _ _ _) (by decide)⟩

end QChain
